import Mathlib

/-!
Verification of the wordle-tui core logic.

Python strings are modelled as `List Char`; list mutation as `List.set`;
dictionaries as functions into `Option`.  Each definition mirrors one
function of the repository, named after it where Lean allows.
-/

namespace Wordle

/-- Tile states, mirroring `TileState` in `client/widgets/tile.py`. -/
inductive TileState where
  | empty
  | filled
  | correct
  | present
  | absent
deriving DecidableEq, Repr

/-- String value of a tile state, mirroring the Python `str`-enum values. -/
def TileState.value : TileState → String
  | .empty => "empty"
  | .filled => "filled"
  | .correct => "correct"
  | .present => "present"
  | .absent => "absent"

/-! ## Guess evaluator (`GameBoard.evaluate_guess`) -/

/-- Inner loop of pass 2 of `GameBoard.evaluate_guess`: scan `j` over
`range(5)`, returning the first `j` with `not used[j] and guess[i] == target_chars[j]`. -/
def findFirstUnused (c : Char) (target_chars : List Char) (used : List Bool) : Option Nat :=
  (List.range 5).find? (fun j => !(used.getD j true) && decide (c = target_chars.getD j ' '))

/-- One iteration of the outer loop of pass 2 of `GameBoard.evaluate_guess`:
skip positions already `CORRECT`; otherwise mark the first unused matching
target position. -/
def pass2Step (guess target_chars : List Char) (st : List TileState × List Bool)
    (i : Nat) : List TileState × List Bool :=
  if st.1.getD i TileState.absent = TileState.correct then st
  else
    match findFirstUnused (guess.getD i ' ') target_chars st.2 with
    | some j => (st.1.set i TileState.present, st.2.set j true)
    | none => st

/-- Embedding of `GameBoard.evaluate_guess` from `client/widgets/game_board.py`:
uppercase both words, initialise `result` to five `ABSENT` and `used` to five
`False`, run pass 1 (exact matches) and pass 2 (misplaced matches). -/
def evaluate_guess (g t : List Char) : List TileState :=
  let guess := g.map Char.toUpper
  let target := t.map Char.toUpper
  let target_chars := target
  let init : List TileState × List Bool :=
    (List.replicate 5 TileState.absent, List.replicate 5 false)
  let pass1 : List TileState × List Bool :=
    (List.range 5).foldl
      (fun st i =>
        if guess.getD i ' ' = target.getD i ' ' then
          (st.1.set i TileState.correct, st.2.set i true)
        else st)
      init
  ((List.range 5).foldl (pass2Step guess target_chars) pass1).1

/-! ## Spec-side evaluator

A second evaluator written from the words of the specification (section 4.1):
pass 1 sets `CORRECT` at every position where the letters agree and marks that
target position consumed; pass 2 walks the not-yet-`CORRECT` positions in
order, scanning target positions left-to-right for the first unconsumed one
holding the same letter.  It exists only to be compared with the
source-derived `evaluate_guess`. -/

/-- Spec pass 2 scan: the first (leftmost) unconsumed target position holding
letter `c`. -/
def specScan (c : Char) (target : List Char) (consumed : List Bool) : Option Nat :=
  ((List.range 5).filter
    (fun j => decide (consumed.getD j true = false ∧ target.getD j ' ' = c))).head?

/-- Spec pass 2: process each position in order; positions already `CORRECT`
are skipped, others take the first unconsumed matching target position, mark
it consumed, and become `PRESENT`. -/
def specPass2 (guess target : List Char) :
    List Nat → List TileState → List Bool → List TileState × List Bool
  | [], result, consumed => (result, consumed)
  | i :: rest, result, consumed =>
    if result.getD i TileState.absent = TileState.correct then
      specPass2 guess target rest result consumed
    else
      match specScan (guess.getD i ' ') target consumed with
      | some j => specPass2 guess target rest (result.set i TileState.present) (consumed.set j true)
      | none => specPass2 guess target rest result consumed

/-- Spec evaluator: pass 1 gives `CORRECT` exactly at agreeing positions
(consuming them), then pass 2 runs over positions `0..4` in order. -/
def specEvaluate (guess target : List Char) : List TileState :=
  let result1 := (List.range 5).map
    (fun i => if guess.getD i ' ' = target.getD i ' ' then TileState.correct else TileState.absent)
  let consumed1 := (List.range 5).map
    (fun i => decide (guess.getD i ' ' = target.getD i ' '))
  (specPass2 guess target (List.range 5) result1 consumed1).1

/-! ## Progress save (`save_progress` in `server/games/router.py`) -/

/-- Game Progress Snapshot, mirroring `GameProgress` in `server/games/models.py`
(restricted to one (user, word) pair). -/
structure GameProgress where
  guesses : List (List Char)
  elapsed_seconds : Nat
deriving DecidableEq, Repr

/-- Response body of the `/games/progress` endpoint. -/
structure SaveOutcome where
  saved : Bool
  message : Option String
deriving DecidableEq, Repr

/-- Embedding of `save_progress` from `server/games/router.py` for one
(user, word) pair: `existing_result` is whether a `GameResult` row exists for
the pair, `stored` the current `GameProgress` row.  Returns the response body
and the snapshot stored afterwards. -/
def save_progress (existing_result : Bool) (stored : Option GameProgress)
    (req_guesses : List (List Char)) (req_elapsed : Nat) :
    SaveOutcome × Option GameProgress :=
  if existing_result then (⟨false, some "Game already completed"⟩, stored)
  else
    match stored with
    | some progress =>
      let existing_guesses := progress.guesses
      let new_guesses := req_guesses
      if new_guesses.length < existing_guesses.length then
        (⟨false, some "Cannot remove guesses"⟩, stored)
      else if new_guesses.take existing_guesses.length ≠ existing_guesses then
        (⟨false, some "Cannot modify previous guesses"⟩, stored)
      else
        (⟨true, none⟩, some ⟨req_guesses, max progress.elapsed_seconds req_elapsed⟩)
    | none => (⟨true, none⟩, some ⟨req_guesses, req_elapsed⟩)

/-- Iterated saves against the same pair with no finished result: the snapshot
surviving a sequence of requests (each request = guesses, elapsed). -/
def runSaves (stored : Option GameProgress) (reqs : List (List (List Char) × Nat)) :
    Option GameProgress :=
  reqs.foldl (fun st r => (save_progress false st r.1 r.2).2) stored

/-! ## Game results, uniqueness and rank
(`server/games/models.py`, `server/games/service.py`, `server/games/router.py`) -/

/-- Row of the `game_results` table (`GameResult` in `server/games/models.py`);
`completed_at` is a timestamp modelled as a natural number. -/
structure GameResultRow where
  id : Nat
  user_id : Nat
  word_id : Nat
  attempts : Nat
  solved : Bool
  time_seconds : Option Nat
  completed_at : Nat
  guess_history : List (List Char)
deriving DecidableEq, Repr

/-- Whether the `game_results` table already holds a row for the pair. -/
def pairExists (table : List GameResultRow) (u w : Nat) : Bool :=
  table.any (fun r => r.user_id == u && r.word_id == w)

/-- Modelled persistence layer: inserting into `game_results` under the
declared `UniqueConstraint("user_id", "word_id", name="unique_user_daily_game")`
of `server/games/models.py` — a duplicate pair raises `IntegrityError` and
leaves the table unchanged. -/
def insertGameResult (table : List GameResultRow) (row : GameResultRow) :
    Option (List GameResultRow) :=
  if pairExists table row.user_id row.word_id then none
  else some (table ++ [row])

/-- Embedding of the `/games/submit` handler of `server/games/router.py` as it
touches the `game_results` table: `submit_game` inserts the new row and the
router converts `IntegrityError` into the error detail
`"Already played today"`.  Returns the error detail (if any) and the table
afterwards. -/
def submit (table : List GameResultRow) (row : GameResultRow) :
    Option String × List GameResultRow :=
  match insertGameResult table row with
  | some t => (none, t)
  | none => (some "Already played today", table)

/-- At most one `game_results` row per (user, word) pair. -/
def atMostOnePerPair (table : List GameResultRow) : Prop :=
  table.Pairwise (fun r s => ¬(r.user_id = s.user_id ∧ r.word_id = s.word_id))

/-- Embedding of `get_rank_for_game` from `server/games/service.py`: count the
solved results for the same word completed strictly earlier; rank is that
count plus one for a solved game, `0` otherwise. -/
def get_rank_for_game (table : List GameResultRow) (game : GameResultRow) : Nat :=
  let count := table.countP
    (fun r => r.word_id == game.word_id && r.solved && decide (r.completed_at < game.completed_at))
  if game.solved then count + 1 else 0

/-- Solved results for a word, as filtered by the rank query. -/
def solvedGames (table : List GameResultRow) (w : Nat) : List GameResultRow :=
  table.filter (fun r => r.word_id == w && r.solved)

/-! ## Streaks (`update_streak` in `server/streaks/service.py`) -/

/-- Row of the `user_streaks` table; `last_played` dates are modelled as
integer day numbers so that "yesterday" is `today - 1`. -/
structure UserStreak where
  current_streak : Nat
  longest_streak : Nat
  last_played : Option Int
  total_games : Nat
  total_wins : Nat
deriving DecidableEq, Repr

/-- Embedding of `update_streak` from `server/streaks/service.py`: create the
row on the first game; otherwise bump the counters, update `current_streak`
only on a solve (increment from yesterday, reset to 1 after a gap or when
`last_played` is missing), fold into `longest_streak`, zero the streak on a
loss, and stamp `last_played` with today in every branch. -/
def update_streak (streak : Option UserStreak) (solved : Bool) (today : Int) :
    UserStreak :=
  match streak with
  | none =>
    { current_streak := if solved then 1 else 0
      longest_streak := if solved then 1 else 0
      last_played := some today
      total_games := 1
      total_wins := if solved then 1 else 0 }
  | some s =>
    let s := { s with total_games := s.total_games + 1 }
    if solved then
      let s := { s with total_wins := s.total_wins + 1 }
      let s :=
        match s.last_played with
        | some lp =>
          let yesterday := today - 1
          if lp = yesterday then { s with current_streak := s.current_streak + 1 }
          else if lp < yesterday then { s with current_streak := 1 }
          else s
        | none => { s with current_streak := 1 }
      let s :=
        if s.current_streak > s.longest_streak then
          { s with longest_streak := s.current_streak }
        else s
      { s with last_played := some today }
    else
      { s with current_streak := 0, last_played := some today }

/-! ## Keyboard (`client/widgets/keyboard.py`) -/

/-- Keyboard widget state: the `key_states` dict, keyed by letter. -/
structure Keyboard where
  key_states : Char → Option String

/-- The `priority` dict of `Keyboard.update_key` with its `.get(_, 0)`
default. -/
def priorityGet (s : String) : Nat :=
  if s = "unused" then 0
  else if s = "absent" then 1
  else if s = "present" then 2
  else if s = "correct" then 3
  else 0

/-- Embedding of `Keyboard.update_key`: uppercase the letter, ignore
non-letters, map `FILLED` to `"unused"`, and store the new state only when it
has strictly higher priority than the current one. -/
def Keyboard.update_key (kb : Keyboard) (letter : Char) (state : TileState) :
    Keyboard :=
  let letter := letter.toUpper
  if letter ∉ "ABCDEFGHIJKLMNOPQRSTUVWXYZ".toList then kb
  else
    let state_str := if state ≠ TileState.filled then state.value else "unused"
    let current := (kb.key_states letter).getD "unused"
    if priorityGet state_str > priorityGet current then
      ⟨Function.update kb.key_states letter (some state_str)⟩
    else kb

/-- Embedding of `Keyboard.update_from_guess`: zip the uppercased guess with
the feedback and feed each pair to `update_key`. -/
def Keyboard.update_from_guess (kb : Keyboard) (guess : List Char)
    (feedback : List TileState) : Keyboard :=
  (List.zip (guess.map Char.toUpper) feedback).foldl
    (fun kb p => kb.update_key p.1 p.2) kb

/-- A call into the keyboard widget: either a direct `update_key` or an
`update_from_guess`. -/
inductive KbOp where
  | key (letter : Char) (state : TileState)
  | guess (g : List Char) (f : List TileState)

/-- Apply one keyboard call. -/
def Keyboard.applyOp (kb : Keyboard) : KbOp → Keyboard
  | .key l s => kb.update_key l s
  | .guess g f => kb.update_from_guess g f

/-- Apply a sequence of keyboard calls. -/
def Keyboard.applyOps (kb : Keyboard) (ops : List KbOp) : Keyboard :=
  ops.foldl Keyboard.applyOp kb

/-- Priority of the state recorded for a letter (`"unused"` when absent from
the dict, exactly as `key_states.get(letter, "unused")`). -/
def Keyboard.letterPriority (kb : Keyboard) (c : Char) : Nat :=
  priorityGet ((kb.key_states c).getD "unused")

/-! ## Board (`client/widgets/game_board.py`) and screen
(`client/screens/game_screen.py`) -/

/-- A board tile (`Tile` in `client/widgets/tile.py`), reduced to its data:
the letter it shows (empty string when blank) and its state. -/
structure Tile where
  letter : List Char
  state : TileState
deriving DecidableEq, Repr

/-- Embedding of `Tile.set_letter`. -/
def Tile.set_letter (_ : Tile) (letter : List Char) : Tile :=
  ⟨letter, if letter ≠ [] then TileState.filled else TileState.empty⟩

/-- Embedding of `Tile.clear`. -/
def Tile.clear (_ : Tile) : Tile :=
  ⟨[], TileState.empty⟩

/-- Embedding of `Tile.reveal` (the rendering delay is ignored). -/
def Tile.reveal (tile : Tile) (new_state : TileState) : Tile :=
  { tile with state := new_state }

/-- The blank tile a fresh board is composed of. -/
def Tile.blank : Tile := ⟨[], TileState.empty⟩

/-- Board state (`GameBoard` in `client/widgets/game_board.py`): the 6×5 tile
grid, the submitted guesses, the target word and the cursor. -/
structure GameBoard where
  tiles : List (List Tile)
  guesses : List (List Char)
  target_word : List Char
  current_row : Nat
  current_col : Nat
deriving DecidableEq, Repr

/-- A freshly composed board: 6 rows of 5 blank tiles, no guesses, no target. -/
def GameBoard.init : GameBoard :=
  ⟨List.replicate 6 (List.replicate 5 Tile.blank), [], [], 0, 0⟩

/-- Embedding of `GameBoard.set_target`. -/
def GameBoard.set_target (b : GameBoard) (word : List Char) : GameBoard :=
  { b with target_word := word.map Char.toUpper }

/-- Read `self.tiles[r][c]`. -/
def GameBoard.getTile (b : GameBoard) (r c : Nat) : Tile :=
  (b.tiles.getD r []).getD c Tile.blank

/-- Replace `self.tiles[r][c]`. -/
def GameBoard.setTile (b : GameBoard) (r c : Nat) (tile : Tile) : GameBoard :=
  { b with tiles := b.tiles.set r ((b.tiles.getD r []).set c tile) }

/-- Embedding of `GameBoard.add_letter`: refuse when the cursor is past the
grid, otherwise write the uppercased letter and advance the column. -/
def GameBoard.add_letter (b : GameBoard) (letter : List Char) :
    Bool × GameBoard :=
  if b.current_row ≥ 6 ∨ b.current_col ≥ 5 then (false, b)
  else
    let b' := b.setTile b.current_row b.current_col
      ((b.getTile b.current_row b.current_col).set_letter (letter.map Char.toUpper))
    (true, { b' with current_col := b.current_col + 1 })

/-- Embedding of `GameBoard.remove_letter`: refuse at column 0, otherwise
step the column back and clear that tile. -/
def GameBoard.remove_letter (b : GameBoard) : Bool × GameBoard :=
  if b.current_col ≤ 0 then (false, b)
  else
    let b' := { b with current_col := b.current_col - 1 }
    (true, b'.setTile b'.current_row b'.current_col
      ((b'.getTile b'.current_row b'.current_col).clear))

/-- Embedding of `GameBoard.get_current_guess`: join the letters of the
current row and uppercase the result. -/
def GameBoard.get_current_guess (b : GameBoard) : List Char :=
  (((List.range 5).map (fun col => (b.getTile b.current_row col).letter)).flatten).map
    Char.toUpper

/-- Embedding of `GameBoard.is_row_complete`. -/
def GameBoard.is_row_complete (b : GameBoard) : Bool :=
  b.current_col == 5

/-- The reveal loop of `GameBoard.submit_guess`: `for col, state in
enumerate(feedback): self.tiles[self.current_row][col].reveal(state, ...)`. -/
def GameBoard.revealRow (b : GameBoard) (r : Nat) (feedback : List TileState) :
    GameBoard :=
  feedback.enum.foldl
    (fun b p => b.setTile r p.1 ((b.getTile r p.1).reveal p.2)) b

/-- Embedding of `GameBoard.submit_guess`: reject an incomplete row or a
missing target with `(False, [])` and no state change; otherwise evaluate,
reveal the row, append the guess, compute `won` and move the cursor to the
start of the next row. -/
def GameBoard.submit_guess (b : GameBoard) : (Bool × List TileState) × GameBoard :=
  if ¬(b.is_row_complete = true) ∨ b.target_word = [] then ((false, []), b)
  else
    let guess := b.get_current_guess
    let feedback := evaluate_guess guess b.target_word
    let b1 := b.revealRow b.current_row feedback
    let b2 := { b1 with guesses := b1.guesses ++ [guess] }
    let won := guess == b2.target_word
    ((won, feedback), { b2 with current_row := b2.current_row + 1, current_col := 0 })

/-- Screen state (`GameScreen` in `client/screens/game_screen.py`), reduced to
the gameplay data: the board and keyboard widgets, the terminal flags, and the
loaded word list. -/
structure GameScreen where
  board : GameBoard
  keyboard : Keyboard
  game_over : Bool
  won : Bool
  valid_words : List (List Char)

/-- Key events the screen reacts to in `GameScreen.on_key`. -/
inductive KeyEvent where
  | backspace
  | enter
  | char (c : Char)

/-- Embedding of `GameScreen._submit_guess` (word validation and board
submission; messages, animations and network calls carry no gameplay
state): an incomplete row or an out-of-dictionary word leaves the state
untouched; otherwise the board submits, the keyboard updates, and the
terminal flags are set on a win or on reaching row 6. -/
def GameScreen.submit_step (st : GameScreen) : GameScreen :=
  if ¬(st.board.is_row_complete = true) then st
  else
    let guess := st.board.get_current_guess
    if st.valid_words ≠ [] ∧ guess ∉ st.valid_words then st
    else
      let res := st.board.submit_guess
      let won := res.1.1
      let feedback := res.1.2
      let board := res.2
      let keyboard := st.keyboard.update_from_guess guess feedback
      if won then { st with board := board, keyboard := keyboard, game_over := true, won := true }
      else if board.current_row ≥ 6 then
        { st with board := board, keyboard := keyboard, game_over := true }
      else { st with board := board, keyboard := keyboard }

/-- Embedding of `GameScreen.on_key`: once `game_over` is set every key is
ignored (enter exits the app, touching no game state); otherwise backspace
removes a letter, enter submits, and a single alphabetic character is typed
onto the board. -/
def GameScreen.on_key (st : GameScreen) (k : KeyEvent) : GameScreen :=
  if st.game_over = true then st
  else
    match k with
    | .backspace => { st with board := st.board.remove_letter.2 }
    | .enter => st.submit_step
    | .char c => if c.isAlpha then { st with board := (st.board.add_letter [c]).2 } else st

/-- Type a 5-letter word and press enter: the key sequence one guess takes. -/
def GameScreen.play_word (st : GameScreen) (w : List Char) : GameScreen :=
  (w.foldl (fun s c => s.on_key (KeyEvent.char c)) st).on_key KeyEvent.enter

/-- A fresh game screen over a target word and a dictionary, as built in
`GameScreen.on_mount` with no saved progress. -/
def GameScreen.start (target : List Char) (valid : List (List Char)) : GameScreen :=
  { board := GameBoard.init.set_target target
    keyboard := ⟨fun _ => none⟩
    game_over := false
    won := false
    valid_words := valid }

/-! ## Theorems: progress reconciliation -/

/-- Single save step from a stored snapshot: some snapshot survives and its
elapsed time never decreases. -/
lemma save_progress_step_mono (p : GameProgress) (rg : List (List Char)) (re : Nat) :
    ∃ q, (save_progress false (some p) rg re).2 = some q
      ∧ p.elapsed_seconds ≤ q.elapsed_seconds := by
  by_cases h1 : rg.length < p.guesses.length
  · exact ⟨p, by simp [save_progress, h1], le_rfl⟩
  · by_cases h2 : rg.take p.guesses.length = p.guesses
    · exact ⟨⟨rg, max p.elapsed_seconds re⟩, by simp [save_progress, h1, h2],
        le_max_left _ _⟩
    · exact ⟨p, by simp [save_progress, h1, h2], le_rfl⟩

/-- Across any sequence of saves the stored elapsed time never decreases. -/
lemma runSaves_mono (reqs : List (List (List Char) × Nat)) :
    ∀ p : GameProgress, ∃ q, runSaves (some p) reqs = some q
      ∧ p.elapsed_seconds ≤ q.elapsed_seconds := by
  induction reqs with
  | nil => exact fun p => ⟨p, rfl, le_rfl⟩
  | cons r rest ih =>
    intro p
    obtain ⟨q, hq, hle⟩ := save_progress_step_mono p r.1 r.2
    obtain ⟨q', hq', hle'⟩ := ih q
    refine ⟨q', ?_, le_trans hle hle'⟩
    simpa [runSaves, hq] using hq'

/-- C3: with a stored snapshot, a save is accepted exactly when the incoming
guess list starts with the stored guesses in order; a truncated or rewritten
list is rejected and the stored snapshot survives unchanged. -/
theorem save_progress_append_only (e : Bool) (p : GameProgress)
    (rg : List (List Char)) (re : Nat) :
    ((save_progress e (some p) rg re).1.saved = true ↔
      (e = false ∧ rg.take p.guesses.length = p.guesses))
    ∧ (rg.length < p.guesses.length →
        (save_progress e (some p) rg re).1.saved = false
        ∧ (save_progress e (some p) rg re).2 = some p)
    ∧ (rg.take p.guesses.length ≠ p.guesses →
        (save_progress e (some p) rg re).1.saved = false
        ∧ (save_progress e (some p) rg re).2 = some p) := by
  have hlen : rg.length < p.guesses.length → rg.take p.guesses.length ≠ p.guesses := by
    intro hlt heq
    have := congrArg List.length heq
    simp [List.length_take] at this
    omega
  cases e with
  | true => simp [save_progress]
  | false =>
    by_cases h1 : rg.length < p.guesses.length
    · have hne := hlen h1
      simp [save_progress, h1, hne]
    · by_cases h2 : rg.take p.guesses.length = p.guesses
      · simp [save_progress, h1, h2]
      · simp [save_progress, h1, h2]

/-- C6: an accepted save over a stored snapshot persists
`max(stored.elapsed_seconds, incoming.elapsed_seconds)` — a smaller incoming
time is still accepted — and the stored elapsed time never decreases across
any sequence of saves. -/
theorem save_progress_monotonic_elapsed (p : GameProgress)
    (rg : List (List Char)) (re : Nat)
    (hpre : rg.take p.guesses.length = p.guesses) :
    (save_progress false (some p) rg re).1.saved = true
    ∧ (save_progress false (some p) rg re).2
        = some ⟨rg, max p.elapsed_seconds re⟩
    ∧ p.elapsed_seconds ≤ max p.elapsed_seconds re
    ∧ (∀ (reqs : List (List (List Char) × Nat)) (q : GameProgress),
        runSaves (some p) reqs = some q → p.elapsed_seconds ≤ q.elapsed_seconds) := by
  have hlen : ¬ rg.length < p.guesses.length := by
    intro hlt
    have := congrArg List.length hpre
    simp [List.length_take] at this
    omega
  refine ⟨?_, ?_, le_max_left _ _, ?_⟩
  · simp [save_progress, hlen, hpre]
  · simp [save_progress, hlen, hpre]
  · intro reqs q hq
    obtain ⟨q', hq', hle⟩ := runSaves_mono reqs p
    rw [hq] at hq'
    obtain rfl := Option.some.inj hq'
    exact hle

/-- C10: every rejected save leaves the stored snapshot exactly as it was. -/
theorem save_progress_reject_atomic (e : Bool) (stored : Option GameProgress)
    (rg : List (List Char)) (re : Nat)
    (h : (save_progress e stored rg re).1.saved = false) :
    (save_progress e stored rg re).2 = stored := by
  cases e with
  | true => simp [save_progress]
  | false =>
    cases stored with
    | none => simp [save_progress] at h
    | some p =>
      by_cases h1 : rg.length < p.guesses.length
      · simp [save_progress, h1]
      · by_cases h2 : rg.take p.guesses.length = p.guesses
        · simp [save_progress, h1, h2] at h
        · simp [save_progress, h1, h2]

/-! ## Theorems: game result uniqueness -/

/-- C5: a first submission for a (user, word) pair appends its row; a second
submission for the same pair fails with the duplicate error and the table —
in particular the stored result — is untouched; the at-most-one-row-per-pair
invariant is preserved. -/
theorem game_result_unique (table : List GameResultRow) (row : GameResultRow) :
    (pairExists table row.user_id row.word_id = true →
      submit table row = (some "Already played today", table))
    ∧ (pairExists table row.user_id row.word_id = false →
      submit table row = (none, table ++ [row]))
    ∧ (atMostOnePerPair table → atMostOnePerPair (submit table row).2) := by
  refine ⟨?_, ?_, ?_⟩
  · intro h
    simp [submit, insertGameResult, h]
  · intro h
    simp [submit, insertGameResult, h]
  · intro hinv
    by_cases h : pairExists table row.user_id row.word_id = true
    · simp [submit, insertGameResult, h]
      exact hinv
    · have h' : pairExists table row.user_id row.word_id = false := by
        simpa using h
      simp only [submit, insertGameResult, h', if_false, Bool.false_eq_true]
      refine List.pairwise_append.2 ⟨hinv, List.pairwise_singleton _ _, ?_⟩
      intro a ha b hb
      have hb' : b = row := by simpa using hb
      subst hb'
      have := (List.any_eq_false).1 h' a ha
      simp only [pairExists, Bool.and_eq_true, beq_iff_eq] at this
      intro hcon
      exact this ⟨hcon.1, hcon.2⟩

/-! ## Theorems: streak update -/

/-- C8: the streak update increments `current_streak` on a solve when
`last_played` was exactly yesterday, resets it to 1 on a solve after a gap or
on the first game, zeroes it on a loss, folds it into `longest_streak` as a
maximum, and stamps `last_played` with today in every case. -/
theorem update_streak_rules (st : Option UserStreak) (solved : Bool) (today : Int) :
    (update_streak st solved today).last_played = some today
    ∧ (∀ s, st = some s → solved = true → s.last_played = some (today - 1) →
        (update_streak st solved today).current_streak = s.current_streak + 1)
    ∧ (∀ s, st = some s → solved = true →
        (s.last_played = none ∨ (∃ lp, s.last_played = some lp ∧ lp < today - 1)) →
        (update_streak st solved today).current_streak = 1)
    ∧ (st = none → solved = true → (update_streak st solved today).current_streak = 1)
    ∧ (solved = false → (update_streak st solved today).current_streak = 0)
    ∧ (update_streak st solved today).longest_streak
        = max (match st with | none => 0 | some s => s.longest_streak)
            (update_streak st solved today).current_streak := by
  rcases st with _ | s
  · cases solved <;> simp [update_streak]
  · cases solved with
    | false => simp [update_streak]
    | true =>
      rcases hlp : s.last_played with _ | lp
      · refine ⟨?_, ?_, ?_, by simp, by simp, ?_⟩
        · simp only [update_streak, hlp]
          split_ifs <;> rfl
        · intro s' hs' _ hlp'
          obtain rfl := Option.some.inj hs'
          rw [hlp] at hlp'
          exact absurd hlp' (by simp)
        · intro s' hs' _ _
          obtain rfl := Option.some.inj hs'
          simp only [update_streak, hlp]
          split_ifs <;> rfl
        · simp only [update_streak, hlp]
          split_ifs <;> simp_all <;> omega
      · by_cases h1 : lp = today - 1
        · refine ⟨?_, ?_, ?_, by simp, by simp, ?_⟩
          · simp only [update_streak, hlp, h1]
            split_ifs <;> rfl
          · intro s' hs' _ _
            obtain rfl := Option.some.inj hs'
            simp only [update_streak, hlp, h1]
            split_ifs <;> rfl
          · intro s' hs' _ hgap
            obtain rfl := Option.some.inj hs'
            rcases hgap with hnone | ⟨lp', hlp', hlt⟩
            · rw [hlp] at hnone
              exact absurd hnone (by simp)
            · rw [hlp] at hlp'
              obtain rfl := Option.some.inj hlp'
              omega
          · simp only [update_streak, hlp, h1]
            split_ifs <;> simp_all <;> omega
        · by_cases h2 : lp < today - 1
          · refine ⟨?_, ?_, ?_, by simp, by simp, ?_⟩
            · simp only [update_streak, hlp]
              split_ifs <;> rfl
            · intro s' hs' _ hlp'
              obtain rfl := Option.some.inj hs'
              rw [hlp] at hlp'
              obtain rfl := Option.some.inj hlp'
              exact absurd rfl h1
            · intro s' hs' _ _
              obtain rfl := Option.some.inj hs'
              simp only [update_streak, hlp]
              split_ifs <;> first | rfl | omega
            · simp only [update_streak, hlp]
              split_ifs <;> simp_all <;> omega
          · refine ⟨?_, ?_, ?_, by simp, by simp, ?_⟩
            · simp only [update_streak, hlp]
              split_ifs <;> rfl
            · intro s' hs' _ hlp'
              obtain rfl := Option.some.inj hs'
              rw [hlp] at hlp'
              obtain rfl := Option.some.inj hlp'
              exact absurd rfl h1
            · intro s' hs' _ hgap
              obtain rfl := Option.some.inj hs'
              rcases hgap with hnone | ⟨lp', hlp', hlt⟩
              · rw [hlp] at hnone
                exact absurd hnone (by simp)
              · rw [hlp] at hlp'
                obtain rfl := Option.some.inj hlp'
                exact absurd hlt h2
            · simp only [update_streak, hlp]
              split_ifs <;> simp_all <;> omega

/-! ## Theorems: keyboard monotonicity -/

/-- Priorities of all keyboard states are at most 3. -/
lemma priorityGet_le_three (s : String) : priorityGet s ≤ 3 := by
  unfold priorityGet
  split_ifs <;> omega

/-- One `update_key` call never lowers a letter's priority, and never changes
a letter already recorded `"correct"`. -/
lemma update_key_mono (kb : Keyboard) (l : Char) (s : TileState) (c : Char) :
    kb.letterPriority c ≤ (kb.update_key l s).letterPriority c
    ∧ ((kb.key_states c).getD "unused" = "correct" →
        ((kb.update_key l s).key_states c).getD "unused" = "correct") := by
  have hred : kb.update_key l s =
      if l.toUpper ∉ "ABCDEFGHIJKLMNOPQRSTUVWXYZ".toList then kb
      else if priorityGet (if s ≠ TileState.filled then s.value else "unused")
          > priorityGet ((kb.key_states l.toUpper).getD "unused") then
        ⟨Function.update kb.key_states l.toUpper
          (some (if s ≠ TileState.filled then s.value else "unused"))⟩
      else kb := rfl
  by_cases hmem : l.toUpper ∈ "ABCDEFGHIJKLMNOPQRSTUVWXYZ".toList
  · rw [hred, if_neg (not_not_intro hmem)]
    by_cases hgt : priorityGet (if s ≠ TileState.filled then s.value else "unused")
        > priorityGet ((kb.key_states l.toUpper).getD "unused")
    · rw [if_pos hgt]
      by_cases hc : c = l.toUpper
      · subst hc
        constructor
        · unfold Keyboard.letterPriority
          simp only [Function.update_same, Option.getD_some]
          exact le_of_lt hgt
        · intro hcor
          rw [hcor] at hgt
          have h3 := priorityGet_le_three (if s ≠ TileState.filled then s.value else "unused")
          have hc3 : priorityGet "correct" = 3 := by simp [priorityGet]
          omega
      · constructor
        · unfold Keyboard.letterPriority
          simp [Function.update_noteq hc]
        · intro hcor
          simpa [Function.update_noteq hc] using hcor
    · rw [if_neg hgt]
      exact ⟨le_rfl, fun h => h⟩
  · rw [hred, if_pos hmem]
    exact ⟨le_rfl, fun h => h⟩

/-- Folding `update_key` over letter/state pairs (the body of
`update_from_guess`) never lowers a letter's priority and keeps `"correct"`. -/
lemma foldl_update_key_mono (c : Char) :
    ∀ (ps : List (Char × TileState)) (kb : Keyboard),
      kb.letterPriority c
        ≤ (ps.foldl (fun kb p => kb.update_key p.1 p.2) kb).letterPriority c
      ∧ ((kb.key_states c).getD "unused" = "correct" →
          (((ps.foldl (fun kb p => kb.update_key p.1 p.2) kb).key_states c).getD "unused"
            = "correct")) := by
  intro ps
  induction ps with
  | nil => exact fun kb => ⟨le_rfl, fun h => h⟩
  | cons p rest ih =>
    intro kb
    obtain ⟨h1, h2⟩ := update_key_mono kb p.1 p.2 c
    obtain ⟨h1', h2'⟩ := ih (kb.update_key p.1 p.2)
    exact ⟨le_trans h1 h1', fun h => h2' (h2 h)⟩

/-- One keyboard call never lowers a letter's priority and keeps `"correct"`. -/
lemma applyOp_mono (kb : Keyboard) (op : KbOp) (c : Char) :
    kb.letterPriority c ≤ (kb.applyOp op).letterPriority c
    ∧ ((kb.key_states c).getD "unused" = "correct" →
        ((kb.applyOp op).key_states c).getD "unused" = "correct") := by
  cases op with
  | key l s => exact update_key_mono kb l s c
  | guess g f => exact foldl_update_key_mono c (List.zip (g.map Char.toUpper) f) kb

/-- C9: under any sequence of `update_key` / `update_from_guess` calls a
letter's recorded state never moves down the ordering
`UNUSED < ABSENT < PRESENT < CORRECT`; in particular a letter recorded
`"correct"` stays `"correct"`. -/
theorem keyboard_state_monotonic (kb : Keyboard) (ops : List KbOp) (c : Char) :
    kb.letterPriority c ≤ (kb.applyOps ops).letterPriority c
    ∧ ((kb.key_states c).getD "unused" = "correct" →
        ((kb.applyOps ops).key_states c).getD "unused" = "correct") := by
  induction ops generalizing kb with
  | nil => exact ⟨le_rfl, fun h => h⟩
  | cons op rest ih =>
    obtain ⟨h1, h2⟩ := applyOp_mono kb op c
    obtain ⟨h1', h2'⟩ := ih (kb.applyOp op)
    exact ⟨le_trans h1 h1', fun h => h2' (h2 h)⟩

/-- A keyboard with the letter A already recorded `"correct"`. -/
def kbCorrectA : Keyboard :=
  ⟨fun c => if c = 'A' then some "correct" else none⟩

/-- A sequence of calls that tries to downgrade A via both entry points. -/
def kbOpsWitness : List KbOp :=
  [KbOp.key 'A' TileState.absent,
   KbOp.guess ['A', 'B', 'A', 'C', 'K'] (List.replicate 5 TileState.present)]

/-- Witness for C9: concrete keyboard and call sequence. -/
theorem keyboard_state_monotonic_witness :
    kbCorrectA.letterPriority 'A'
      ≤ (kbCorrectA.applyOps kbOpsWitness).letterPriority 'A'
    ∧ ((kbCorrectA.applyOps kbOpsWitness).key_states 'A').getD "unused" = "correct" :=
  ⟨(keyboard_state_monotonic kbCorrectA kbOpsWitness 'A').1,
   (keyboard_state_monotonic kbCorrectA kbOpsWitness 'A').2 (by simp [kbCorrectA])⟩

/-! ## Theorems: rank assignment -/

/-- Counting strictly smaller elements of a duplicate-free list as a Finset
card. -/
lemma countP_lt_eq_card (ts : List Nat) (hnd : ts.Nodup) (x : Nat) :
    ts.countP (fun y => decide (y < x)) = (ts.toFinset.filter (fun y => y < x)).card := by
  rw [List.countP_eq_length_filter]
  rw [← List.toFinset_card_of_nodup (hnd.filter _)]
  congr 1
  rw [List.toFinset_filter]
  apply Finset.filter_congr
  intro z _
  simp

/-- Counting strictly-below is strictly monotone between members. -/
lemma card_filter_lt_strictMono (T : Finset Nat) (x y : Nat) (hx : x ∈ T)
    (hxy : x < y) :
    (T.filter (fun z => z < x)).card < (T.filter (fun z => z < y)).card := by
  apply Finset.card_lt_card
  rw [Finset.ssubset_iff_of_subset]
  · exact ⟨x, Finset.mem_filter.2 ⟨hx, hxy⟩, by simp⟩
  · intro z hz
    simp only [Finset.mem_filter] at hz ⊢
    exact ⟨hz.1, lt_trans hz.2 hxy⟩

/-- Fewer elements lie strictly below a member than there are elements. -/
lemma card_filter_lt_self (T : Finset Nat) (x : Nat) (hx : x ∈ T) :
    (T.filter (fun z => z < x)).card < T.card := by
  apply Finset.card_lt_card
  rw [Finset.ssubset_iff_of_subset (Finset.filter_subset _ _)]
  exact ⟨x, hx, by simp⟩

/-- C7: the rank of a submitted game is the count of solved games for the
same word completed strictly earlier, plus one, and `0` for an unsolved game;
when the solved games for a word carry pairwise-distinct completion
timestamps, their ranks are pairwise distinct and fill `1..N` exactly. -/
theorem rank_assignment (table : List GameResultRow) (w : Nat)
    (hnd : ((solvedGames table w).map (fun r => r.completed_at)).Nodup) :
    (∀ g : GameResultRow, g.solved = false → get_rank_for_game table g = 0)
    ∧ (∀ g ∈ solvedGames table w,
        get_rank_for_game table g
          = (solvedGames table w).countP
              (fun r => decide (r.completed_at < g.completed_at)) + 1)
    ∧ ((solvedGames table w).map (get_rank_for_game table)).Nodup
    ∧ ((solvedGames table w).map (get_rank_for_game table)).toFinset
        = Finset.Icc 1 ((solvedGames table w).map (get_rank_for_game table)).length := by
  have hmemS : ∀ g ∈ solvedGames table w, g.word_id = w ∧ g.solved = true := by
    intro g hg
    have h := List.mem_filter.1 hg
    simpa using h.2
  have hrank0 : ∀ g : GameResultRow, g.solved = false → get_rank_for_game table g = 0 := by
    intro g hs
    unfold get_rank_for_game
    rw [hs]
    simp
  have hcount : ∀ g ∈ solvedGames table w,
      get_rank_for_game table g
        = (solvedGames table w).countP
            (fun r => decide (r.completed_at < g.completed_at)) + 1 := by
    intro g hg
    obtain ⟨hw, hs⟩ := hmemS g hg
    unfold get_rank_for_game
    rw [hs]
    simp only [if_true]
    congr 1
    unfold solvedGames
    rw [List.countP_filter]
    apply List.countP_congr
    intro r _
    simp only [hw, Bool.and_eq_true, beq_iff_eq, decide_eq_true_eq]
    tauto
  have hts : ∀ g ∈ solvedGames table w,
      get_rank_for_game table g
        = ((solvedGames table w).map (fun r => r.completed_at)).countP
            (fun y => decide (y < g.completed_at)) + 1 := by
    intro g hg
    rw [hcount g hg, List.countP_map]
    rfl
  have hmemts : ∀ g ∈ solvedGames table w,
      g.completed_at ∈ ((solvedGames table w).map (fun r => r.completed_at)).toFinset := by
    intro g hg
    rw [List.mem_toFinset]
    exact List.mem_map_of_mem _ hg
  have hinj : ∀ x ∈ solvedGames table w, ∀ y ∈ solvedGames table w,
      get_rank_for_game table x = get_rank_for_game table y → x = y := by
    intro x hx y hy heq
    rw [hts x hx, hts y hy] at heq
    rw [countP_lt_eq_card _ hnd, countP_lt_eq_card _ hnd] at heq
    rcases lt_trichotomy x.completed_at y.completed_at with hlt | he | hgt
    · have := card_filter_lt_strictMono _ _ _ (hmemts x hx) hlt
      omega
    · exact List.inj_on_of_nodup_map hnd hx hy he
    · have := card_filter_lt_strictMono _ _ _ (hmemts y hy) hgt
      omega
  have hranksnd : ((solvedGames table w).map (get_rank_for_game table)).Nodup :=
    List.Nodup.map_on hinj hnd.of_map
  refine ⟨hrank0, hcount, hranksnd, ?_⟩
  have hlen : ((solvedGames table w).map (get_rank_for_game table)).length
      = ((solvedGames table w).map (fun r => r.completed_at)).toFinset.card := by
    rw [List.toFinset_card_of_nodup hnd]
    simp
  apply Finset.eq_of_subset_of_card_le
  · intro v hv
    rw [List.mem_toFinset] at hv
    obtain ⟨g, hg, rfl⟩ := List.mem_map.1 hv
    rw [Finset.mem_Icc, hts g hg, countP_lt_eq_card _ hnd]
    have hb := card_filter_lt_self _ _ (hmemts g hg)
    omega
  · rw [List.toFinset_card_of_nodup hranksnd, Nat.card_Icc]
    omega

/-- A concrete table: three solved games for word 3 with distinct completion
times, a loss for word 3 and a solved game for another word. -/
def rankTable : List GameResultRow :=
  [⟨1, 7, 3, 4, true, some 42, 100, []⟩,
   ⟨2, 8, 3, 2, true, some 17, 50, []⟩,
   ⟨3, 9, 3, 6, false, none, 70, []⟩,
   ⟨4, 10, 3, 3, true, some 21, 200, []⟩,
   ⟨5, 11, 4, 1, true, some 5, 10, []⟩]

/-- Witness for C7: on the concrete table the loss ranks 0 and the solved
ranks for word 3 are duplicate-free and fill an initial segment. -/
theorem rank_assignment_witness :
    get_rank_for_game rankTable ⟨3, 9, 3, 6, false, none, 70, []⟩ = 0
    ∧ ((solvedGames rankTable 3).map (get_rank_for_game rankTable)).Nodup
    ∧ ((solvedGames rankTable 3).map (get_rank_for_game rankTable)).toFinset
        = Finset.Icc 1 ((solvedGames rankTable 3).map (get_rank_for_game rankTable)).length :=
  ⟨(rank_assignment rankTable 3 (by decide)).1 _ rfl,
   (rank_assignment rankTable 3 (by decide)).2.2.1,
   (rank_assignment rankTable 3 (by decide)).2.2.2⟩

/-! ## Theorems: the evaluator follows the two-pass algorithm -/

/-- Uppercasing an already-uppercase word changes nothing. -/
lemma map_toUpper_eq_self {l : List Char} (h : ∀ c ∈ l, c.toUpper = c) :
    l.map Char.toUpper = l := by
  induction l with
  | nil => rfl
  | cons a l ih =>
    rw [List.map_cons, h a (by simp), ih (fun c hc => h c (by simp [hc]))]

/-- The head of a filtered list is the first element satisfying the filter. -/
lemma head?_filter_eq_find? {α : Type} (p : α → Bool) :
    ∀ l : List α, (l.filter p).head? = l.find? p := by
  intro l
  induction l with
  | nil => rfl
  | cons a l ih => by_cases h : p a <;> simp [List.filter_cons, List.find?_cons, h, ih]

/-- The spec scan finds the same target position as the source inner loop. -/
lemma specScan_eq_findFirstUnused (c : Char) (t : List Char) (used : List Bool) :
    specScan c t used = findFirstUnused c t used := by
  unfold specScan findFirstUnused
  rw [head?_filter_eq_find?]
  congr 1
  funext j
  cases h : used.getD j true with
  | true => simp [h]
  | false =>
    simp only [h, Bool.not_false, Bool.true_and]
    simp [decide_eq_decide, eq_comm]

/-- The spec pass 2 recursion is the fold of the source pass 2 body. -/
lemma specPass2_eq_foldl (g t : List Char) :
    ∀ (l : List Nat) (res : List TileState) (used : List Bool),
      specPass2 g t l res used = l.foldl (pass2Step g t) (res, used) := by
  intro l
  induction l with
  | nil => intro res used; rfl
  | cons i rest ih =>
    intro res used
    rw [List.foldl_cons]
    by_cases hc : res.getD i TileState.absent = TileState.correct
    · simp only [specPass2, pass2Step, hc, if_true, if_pos]
      exact ih res used
    · simp only [specPass2, pass2Step, hc, if_false]
      rw [specScan_eq_findFirstUnused]
      cases h : findFirstUnused (g.getD i ' ') t used with
      | some j => simp only [h, ih]
      | none => simp only [h, ih]

/-- Pass 1 of the source evaluator lands in the state the spec describes:
`CORRECT` exactly at agreeing positions, and exactly those target positions
consumed. -/
lemma pass1_eq (g t : List Char) :
    (List.range 5).foldl
      (fun st i =>
        if g.getD i ' ' = t.getD i ' ' then
          (st.1.set i TileState.correct, st.2.set i true)
        else st)
      (List.replicate 5 TileState.absent, List.replicate 5 false)
    = ((List.range 5).map
        (fun i => if g.getD i ' ' = t.getD i ' ' then TileState.correct else TileState.absent),
       (List.range 5).map
        (fun i => decide (g.getD i ' ' = t.getD i ' '))) := by
  have h5 : List.range 5 = [0, 1, 2, 3, 4] := rfl
  rw [h5]
  by_cases h0 : g[0]?.getD ' ' = t[0]?.getD ' ' <;>
  by_cases h1 : g[1]?.getD ' ' = t[1]?.getD ' ' <;>
  by_cases h2 : g[2]?.getD ' ' = t[2]?.getD ' ' <;>
  by_cases h3 : g[3]?.getD ' ' = t[3]?.getD ' ' <;>
  by_cases h4 : g[4]?.getD ' ' = t[4]?.getD ' ' <;>
  simp [h0, h1, h2, h3, h4, List.replicate, List.set]

/-- C1: on 5-letter uppercase words the evaluator computes exactly the
two-pass consume-tracking algorithm of the specification. -/
theorem guess_evaluator_two_pass (g t : List Char)
    (hg5 : g.length = 5) (ht5 : t.length = 5)
    (hgU : ∀ c ∈ g, c.toUpper = c) (htU : ∀ c ∈ t, c.toUpper = c) :
    evaluate_guess g t = specEvaluate g t := by
  have hgid := map_toUpper_eq_self hgU
  have htid := map_toUpper_eq_self htU
  simp only [evaluate_guess, specEvaluate]
  rw [hgid, htid, pass1_eq g t, ← specPass2_eq_foldl]

/-- Witness for C1: the duplicate-letter example SPEED against ERASE. -/
theorem guess_evaluator_two_pass_witness :
    evaluate_guess "SPEED".toList "ERASE".toList
      = specEvaluate "SPEED".toList "ERASE".toList :=
  guess_evaluator_two_pass "SPEED".toList "ERASE".toList
    (by decide) (by decide) (by decide) (by decide)

/-! ## Theorems: evaluator counting properties -/

/-- Writing at one index leaves the other positions unchanged. -/
lemma getD_set_ne {α : Type} (l : List α) (i k : Nat) (v d : α) (h : i ≠ k) :
    (l.set i v).getD k d = l.getD k d := by
  simp [List.getD_eq_getElem?_getD, List.getElem?_set_ne h]

/-- Writing at an in-range index stores the value there. -/
lemma getD_set_self {α : Type} (l : List α) (i : Nat) (v d : α) (h : i < l.length) :
    (l.set i v).getD i d = v := by
  simp [List.getD_eq_getElem?_getD, List.getElem?_set_self, h]

/-- Reading a mapped range at a position. -/
lemma getD_map_range {α : Type} (f : Nat → α) (d : α) (i : Nat) :
    ((List.range 5).map f).getD i d = if i < 5 then f i else d := by
  by_cases h : i < 5
  · rw [List.getD_eq_getElem _ _ (by simpa using h)]
    simp [h]
  · rw [List.getD_eq_default _ _ (by simpa using h)]
    simp [h]

/-- Counting over a list is counting over its positions. -/
lemma countP_eq_countP_range {α : Type} (p : α → Bool) (d : α) :
    ∀ l : List α, l.countP p = (List.range l.length).countP (fun i => p (l.getD i d)) := by
  intro l
  induction l with
  | nil => rfl
  | cons a l ih =>
    rw [List.countP_cons, List.length_cons, List.range_succ_eq_map,
      List.countP_cons, List.countP_map]
    have hcomp : ((fun i => p ((a :: l).getD i d)) ∘ Nat.succ)
        = (fun i => p (l.getD i d)) := by
      funext i
      simp
    rw [hcomp, ih]
    simp

/-- Replacing a predicate that differs only at one listed index `i` where the
old predicate was false adds exactly the indicator of the new predicate at
`i`. -/
lemma countP_update_at (i : Nat) (q q' : Nat → Bool) :
    ∀ l : List Nat, l.Nodup → i ∈ l →
      (∀ k ∈ l, k ≠ i → q k = q' k) → q i = false →
      l.countP q' = l.countP q + (if q' i then 1 else 0) := by
  intro l
  induction l with
  | nil => intro _ hi; cases hi
  | cons a rest ih =>
    intro hnd hi hsame hqi
    rw [List.countP_cons, List.countP_cons]
    rcases List.mem_cons.1 hi with rfl | hmem
    · have hrest : rest.countP q' = rest.countP q := by
        apply List.countP_congr
        intro x hx
        have hne : x ≠ i := fun he => (List.nodup_cons.1 hnd).1 (he ▸ hx)
        rw [hsame x (List.mem_cons_of_mem _ hx) hne]
      rw [hrest, hqi]
      simp
    · have ha : a ≠ i := fun he => (List.nodup_cons.1 hnd).1 (he ▸ hmem)
      have hqa : q' a = q a := (hsame a (List.mem_cons_self a rest) ha).symm
      rw [hqa, ih (List.nodup_cons.1 hnd).2 hmem
        (fun k hk hki => hsame k (List.mem_cons_of_mem _ hk) hki) hqi]
      omega

/-- Scoring position `i` as `PRESENT` (previously neither `CORRECT` nor
`PRESENT`) raises the per-letter score count by the indicator of
`guess[i] == L`. -/
lemma res_count_step (g : List Char) (L : Char) (res : List TileState) (i : Nat)
    (hi5 : i < 5) (hlen : res.length = 5)
    (hc : res.getD i TileState.absent ≠ TileState.correct)
    (hp : res.getD i TileState.absent ≠ TileState.present) :
    (List.range 5).countP
      (fun k => decide (g.getD k ' ' = L)
        && ((res.set i TileState.present).getD k TileState.absent == TileState.correct
          || (res.set i TileState.present).getD k TileState.absent == TileState.present))
    = (List.range 5).countP
        (fun k => decide (g.getD k ' ' = L)
          && (res.getD k TileState.absent == TileState.correct
            || res.getD k TileState.absent == TileState.present))
      + (if g.getD i ' ' = L then 1 else 0) := by
  have h := countP_update_at i
    (fun k => decide (g.getD k ' ' = L)
      && (res.getD k TileState.absent == TileState.correct
        || res.getD k TileState.absent == TileState.present))
    (fun k => decide (g.getD k ' ' = L)
      && ((res.set i TileState.present).getD k TileState.absent == TileState.correct
        || (res.set i TileState.present).getD k TileState.absent == TileState.present))
    (List.range 5) (List.nodup_range 5) (List.mem_range.2 hi5)
    (fun k _ hki => by
      have he := getD_set_ne res i k TileState.present TileState.absent
        (fun he => hki he.symm)
      show (decide (g.getD k ' ' = L)
          && (res.getD k TileState.absent == TileState.correct
            || res.getD k TileState.absent == TileState.present))
        = (decide (g.getD k ' ' = L)
          && ((res.set i TileState.present).getD k TileState.absent == TileState.correct
            || (res.set i TileState.present).getD k TileState.absent == TileState.present))
      rw [he])
    (by
      have hb : (res.getD i TileState.absent == TileState.correct
          || res.getD i TileState.absent == TileState.present) = false := by
        simp only [Bool.or_eq_false_iff, beq_eq_false_iff_ne, ne_eq]
        exact ⟨hc, hp⟩
      show (decide (g.getD i ' ' = L)
        && (res.getD i TileState.absent == TileState.correct
          || res.getD i TileState.absent == TileState.present)) = false
      rw [hb, Bool.and_false])
  rw [h]
  congr 1
  have hval : (res.set i TileState.present).getD i TileState.absent = TileState.present :=
    getD_set_self _ _ _ _ (by omega)
  show (if (decide (g.getD i ' ' = L)
      && ((res.set i TileState.present).getD i TileState.absent == TileState.correct
        || (res.set i TileState.present).getD i TileState.absent == TileState.present)) = true
    then 1 else 0)
    = if g.getD i ' ' = L then 1 else 0
  rw [hval]
  simp

/-- Consuming the unconsumed target position `j` raises the per-letter
consumed count by the indicator of `target[j] == L`. -/
lemma used_count_step (t : List Char) (L : Char) (used : List Bool) (j : Nat)
    (hj5 : j < 5) (hlen : used.length = 5)
    (hj : used.getD j false = false) :
    (List.range 5).countP
      (fun k => (used.set j true).getD k false && decide (t.getD k ' ' = L))
    = (List.range 5).countP
        (fun k => used.getD k false && decide (t.getD k ' ' = L))
      + (if t.getD j ' ' = L then 1 else 0) := by
  have h := countP_update_at j
    (fun k => used.getD k false && decide (t.getD k ' ' = L))
    (fun k => (used.set j true).getD k false && decide (t.getD k ' ' = L))
    (List.range 5) (List.nodup_range 5) (List.mem_range.2 hj5)
    (fun k _ hkj => by
      have he := getD_set_ne used j k true false (fun he => hkj he.symm)
      show (used.getD k false && decide (t.getD k ' ' = L))
        = ((used.set j true).getD k false && decide (t.getD k ' ' = L))
      rw [he])
    (by
      show (used.getD j false && decide (t.getD j ' ' = L)) = false
      rw [hj, Bool.false_and])
  rw [h]
  congr 1
  have hval : (used.set j true).getD j false = true :=
    getD_set_self _ _ _ _ (by omega)
  show (if ((used.set j true).getD j false && decide (t.getD j ' ' = L)) = true
    then 1 else 0)
    = if t.getD j ' ' = L then 1 else 0
  rw [hval]
  simp

/-- Invariant of the source pass 2 fold over any duplicate-free set of
positions below 5 none of which is already `PRESENT`: both state lists keep
length 5, for every letter the count of scored guess positions (`CORRECT` or
`PRESENT`) equals the count of consumed target positions holding that letter,
and `CORRECT` sits exactly at the agreeing positions. -/
lemma pass2_fold_invariant (g t : List Char) :
    ∀ l : List Nat, l.Nodup → (∀ i ∈ l, i < 5) →
    ∀ (res : List TileState) (used : List Bool),
      res.length = 5 → used.length = 5 →
      (∀ i ∈ l, res.getD i TileState.absent ≠ TileState.present) →
      (∀ L : Char,
        (List.range 5).countP
          (fun k => decide (g.getD k ' ' = L)
            && (res.getD k TileState.absent == TileState.correct
              || res.getD k TileState.absent == TileState.present))
        = (List.range 5).countP
            (fun k => used.getD k false && decide (t.getD k ' ' = L))) →
      (∀ i : Nat, res.getD i TileState.absent = TileState.correct ↔
        (i < 5 ∧ g.getD i ' ' = t.getD i ' ')) →
      (l.foldl (pass2Step g t) (res, used)).1.length = 5
      ∧ (l.foldl (pass2Step g t) (res, used)).2.length = 5
      ∧ (∀ L : Char,
          (List.range 5).countP
            (fun k => decide (g.getD k ' ' = L)
              && ((l.foldl (pass2Step g t) (res, used)).1.getD k TileState.absent
                    == TileState.correct
                || (l.foldl (pass2Step g t) (res, used)).1.getD k TileState.absent
                    == TileState.present))
          = (List.range 5).countP
              (fun k => (l.foldl (pass2Step g t) (res, used)).2.getD k false
                && decide (t.getD k ' ' = L)))
      ∧ (∀ i : Nat,
          (l.foldl (pass2Step g t) (res, used)).1.getD i TileState.absent
              = TileState.correct ↔
            (i < 5 ∧ g.getD i ' ' = t.getD i ' ')) := by
  intro l
  induction l with
  | nil =>
    intro _ _ res used hr hu _ hP2 hP3
    exact ⟨hr, hu, hP2, hP3⟩
  | cons i rest ih =>
    intro hnd hlt res used hr hu hP4 hP2 hP3
    rw [List.foldl_cons]
    have hnd' := (List.nodup_cons.1 hnd).2
    have hnotmem := (List.nodup_cons.1 hnd).1
    have hi5 : i < 5 := hlt i (List.mem_cons_self i rest)
    have hlt' : ∀ k ∈ rest, k < 5 := fun k hk => hlt k (List.mem_cons_of_mem _ hk)
    by_cases hc : res.getD i TileState.absent = TileState.correct
    · have hstep : pass2Step g t (res, used) i = (res, used) := by
        unfold pass2Step
        rw [if_pos hc]
      rw [hstep]
      exact ih hnd' hlt' res used hr hu
        (fun k hk => hP4 k (List.mem_cons_of_mem _ hk)) hP2 hP3
    · cases hf : findFirstUnused (g.getD i ' ') t used with
      | none =>
        have hstep : pass2Step g t (res, used) i = (res, used) := by
          unfold pass2Step
          rw [if_neg hc, hf]
        rw [hstep]
        exact ih hnd' hlt' res used hr hu
          (fun k hk => hP4 k (List.mem_cons_of_mem _ hk)) hP2 hP3
      | some j =>
        have hstep : pass2Step g t (res, used) i
            = (res.set i TileState.present, used.set j true) := by
          unfold pass2Step
          rw [if_neg hc, hf]
        have hf' : (List.range 5).find?
            (fun k => !(used.getD k true) && decide (g.getD i ' ' = t.getD k ' '))
            = some j := by
          simpa [findFirstUnused] using hf
        have hj5 : j < 5 := List.mem_range.1 (List.mem_of_find?_eq_some hf')
        have hpred := List.find?_some hf'
        have hpair : (!(used.getD j true)) = true
            ∧ decide (g.getD i ' ' = t.getD j ' ') = true := by
          simpa [Bool.and_eq_true] using hpred
        have hused_j : used.getD j true = false := by simpa using hpair.1
        have hgt : g.getD i ' ' = t.getD j ' ' := by simpa using hpair.2
        have hused_j' : used.getD j false = false := by
          rw [List.getD_eq_getElem _ _ (by omega)] at hused_j ⊢
          exact hused_j
        have hP4i : res.getD i TileState.absent ≠ TileState.present :=
          hP4 i (List.mem_cons_self i rest)
        rw [hstep]
        apply ih hnd' hlt'
        · simp [hr]
        · simp [hu]
        · intro k hk
          have hki : i ≠ k := fun he => hnotmem (he ▸ hk)
          rw [getD_set_ne _ _ _ _ _ hki]
          exact hP4 k (List.mem_cons_of_mem _ hk)
        · intro L
          rw [res_count_step g L res i hi5 hr hc hP4i,
            used_count_step t L used j hj5 hu hused_j', hP2 L, hgt]
        · intro k
          by_cases hki : i = k
          · subst hki
            rw [getD_set_self _ _ _ _ (by omega)]
            constructor
            · intro h
              exact absurd h (by decide)
            · intro hrhs
              exact absurd ((hP3 i).mpr hrhs) hc
          · rw [getD_set_ne _ _ _ _ _ hki]
            exact hP3 k

/-- C2: on 5-letter uppercase words the evaluator yields exactly as many
`CORRECT` verdicts as positions where guess and target agree, and for every
letter the guess positions holding it that score `CORRECT` or `PRESENT` never
outnumber that letter's occurrences in the target. -/
theorem evaluate_guess_counts (g t : List Char)
    (hg5 : g.length = 5) (ht5 : t.length = 5)
    (hgU : ∀ c ∈ g, c.toUpper = c) (htU : ∀ c ∈ t, c.toUpper = c) :
    ((evaluate_guess g t).countP (fun v => v == TileState.correct)
      = (List.range 5).countP (fun i => decide (g.getD i ' ' = t.getD i ' ')))
    ∧ ∀ L : Char,
        (List.range 5).countP
          (fun i => decide (g.getD i ' ' = L)
            && ((evaluate_guess g t).getD i TileState.absent == TileState.correct
              || (evaluate_guess g t).getD i TileState.absent == TileState.present))
        ≤ t.countP (fun c => c == L) := by
  have hgid := map_toUpper_eq_self hgU
  have htid := map_toUpper_eq_self htU
  have heval : evaluate_guess g t
      = ((List.range 5).foldl (pass2Step g t)
          ((List.range 5).map
            (fun i => if g.getD i ' ' = t.getD i ' ' then TileState.correct else TileState.absent),
           (List.range 5).map
            (fun i => decide (g.getD i ' ' = t.getD i ' ')))).1 := by
    simp only [evaluate_guess]
    rw [hgid, htid, pass1_eq g t]
  have hP40 : ∀ i ∈ List.range 5,
      ((List.range 5).map
        (fun i => if g.getD i ' ' = t.getD i ' ' then TileState.correct else TileState.absent)).getD
          i TileState.absent ≠ TileState.present := by
    intro i _
    rw [getD_map_range]
    split_ifs <;> simp
  have hP20 : ∀ L : Char,
      (List.range 5).countP
        (fun k => decide (g.getD k ' ' = L)
          && (((List.range 5).map
              (fun i => if g.getD i ' ' = t.getD i ' ' then TileState.correct else TileState.absent)).getD
                k TileState.absent == TileState.correct
            || ((List.range 5).map
              (fun i => if g.getD i ' ' = t.getD i ' ' then TileState.correct else TileState.absent)).getD
                k TileState.absent == TileState.present))
      = (List.range 5).countP
          (fun k => ((List.range 5).map
              (fun i => decide (g.getD i ' ' = t.getD i ' '))).getD k false
            && decide (t.getD k ' ' = L)) := by
    intro L
    apply List.countP_congr
    intro i hi
    have hi5 := List.mem_range.1 hi
    rw [getD_map_range, getD_map_range]
    by_cases hgt : g[i]?.getD ' ' = t[i]?.getD ' '
    · simp [hi5, hgt]
    · simp [hi5, hgt]
  have hP30 : ∀ i : Nat,
      ((List.range 5).map
        (fun i => if g.getD i ' ' = t.getD i ' ' then TileState.correct else TileState.absent)).getD
          i TileState.absent = TileState.correct ↔
        (i < 5 ∧ g.getD i ' ' = t.getD i ' ') := by
    intro i
    rw [getD_map_range]
    by_cases hi5 : i < 5
    · simp only [hi5, if_true, true_and]
      split_ifs with h <;> simp_all [List.getD_eq_getElem?_getD]
    · simp [hi5]
  obtain ⟨hlen1, _, hP2f, hP3f⟩ := pass2_fold_invariant g t (List.range 5)
    (List.nodup_range 5) (fun i hi => List.mem_range.1 hi) _ _
    (by simp) (by simp) hP40 hP20 hP30
  constructor
  · rw [heval,
      countP_eq_countP_range (fun v => v == TileState.correct) TileState.absent,
      hlen1]
    apply List.countP_congr
    intro i hi
    have hi5 := List.mem_range.1 hi
    simp only [beq_iff_eq, decide_eq_true_eq]
    rw [hP3f i]
    simp [hi5]
  · intro L
    rw [heval, hP2f L]
    have ht : t.countP (fun c => c == L)
        = (List.range 5).countP (fun k => decide (t.getD k ' ' = L)) := by
      rw [countP_eq_countP_range (fun c => c == L) ' ' t, ht5]
      apply List.countP_congr
      intro i _
      simp
    rw [ht]
    apply List.countP_mono_left
    intro a _ h
    rw [Bool.and_eq_true] at h
    exact h.2

/-- Witness for C2: SPEED against ERASE, with the duplicate letter E. -/
theorem evaluate_guess_counts_witness :
    ((evaluate_guess "SPEED".toList "ERASE".toList).countP (fun v => v == TileState.correct)
      = (List.range 5).countP
          (fun i => decide ("SPEED".toList.getD i ' ' = "ERASE".toList.getD i ' ')))
    ∧ (List.range 5).countP
        (fun i => decide ("SPEED".toList.getD i ' ' = 'E')
          && ((evaluate_guess "SPEED".toList "ERASE".toList).getD i TileState.absent
                == TileState.correct
            || (evaluate_guess "SPEED".toList "ERASE".toList).getD i TileState.absent
                == TileState.present))
      ≤ "ERASE".toList.countP (fun c => c == 'E') :=
  ⟨(evaluate_guess_counts "SPEED".toList "ERASE".toList
      (by decide) (by decide) (by decide) (by decide)).1,
   (evaluate_guess_counts "SPEED".toList "ERASE".toList
      (by decide) (by decide) (by decide) (by decide)).2 'E'⟩

/-! ## Theorems: board and screen rejection safety -/

/-- Well-formed board: a 6-row grid of 5-tile rows. -/
def GameBoard.wf (b : GameBoard) : Prop :=
  b.tiles.length = 6 ∧ ∀ row ∈ b.tiles, row.length = 5

/-- Every row of a well-formed board has 5 tiles. -/
lemma row_length (b : GameBoard) (hwf : b.wf) (r : Nat) (hr : r < 6) :
    (b.tiles.getD r []).length = 5 := by
  have h6 := hwf.1
  have hlt : r < b.tiles.length := by omega
  rw [List.getD_eq_getElem _ _ hlt]
  exact hwf.2 _ (List.getElem_mem hlt)

/-- Writing a tile keeps the board well formed. -/
lemma setTile_wf (b : GameBoard) (r c : Nat) (tile : Tile) (hwf : b.wf)
    (hr : r < 6) : (b.setTile r c tile).wf := by
  constructor
  · simp [GameBoard.setTile, hwf.1]
  · intro row hrow
    rcases List.mem_or_eq_of_mem_set hrow with h | h
    · exact hwf.2 row h
    · rw [h, List.length_set]
      exact row_length b hwf r hr

/-- Reading back the tile just written. -/
lemma getTile_setTile_self (b : GameBoard) (r c : Nat) (tile : Tile)
    (hwf : b.wf) (hr : r < 6) (hc : c < 5) :
    (b.setTile r c tile).getTile r c = tile := by
  have h6 := hwf.1
  have h5 := row_length b hwf r hr
  unfold GameBoard.setTile GameBoard.getTile
  simp only
  rw [getD_set_self _ _ _ _ (by omega), getD_set_self _ _ _ _ (by omega)]

/-- Reading any other position after a tile write. -/
lemma getTile_setTile_ne (b : GameBoard) (r c r' c' : Nat) (tile : Tile)
    (h : r ≠ r' ∨ c ≠ c') :
    (b.setTile r c tile).getTile r' c' = b.getTile r' c' := by
  unfold GameBoard.setTile GameBoard.getTile
  simp only
  by_cases hr : r = r'
  · subst hr
    rcases h with h | h
    · exact absurd rfl h
    · by_cases hlt : r < b.tiles.length
      · rw [getD_set_self _ _ _ _ hlt, getD_set_ne _ _ _ _ _ h]
      · have hinner : (b.tiles.set r ((b.tiles.getD r []).set c tile)).getD r []
            = b.tiles.getD r [] := by
          rw [List.getD_eq_default _ _ (by simp only [List.length_set]; omega),
            List.getD_eq_default _ _ (by omega)]
        rw [hinner]
  · rw [getD_set_ne _ _ _ _ _ hr]

/-- A successful `add_letter` advances only the column and the addressed
tile. -/
lemma add_letter_spec (b : GameBoard) (letter : List Char) (hwf : b.wf)
    (hr : b.current_row < 6) (hc : b.current_col < 5) :
    (b.add_letter letter).1 = true
    ∧ (b.add_letter letter).2.wf
    ∧ (b.add_letter letter).2.current_row = b.current_row
    ∧ (b.add_letter letter).2.current_col = b.current_col + 1
    ∧ (b.add_letter letter).2.guesses = b.guesses
    ∧ (b.add_letter letter).2.target_word = b.target_word
    ∧ (b.add_letter letter).2.getTile b.current_row b.current_col
        = (b.getTile b.current_row b.current_col).set_letter (letter.map Char.toUpper)
    ∧ ∀ r c, (r ≠ b.current_row ∨ c ≠ b.current_col) →
        (b.add_letter letter).2.getTile r c = b.getTile r c := by
  have hcond : ¬(b.current_row ≥ 6 ∨ b.current_col ≥ 5) := by omega
  have hred : b.add_letter letter
      = (true, { b.setTile b.current_row b.current_col
          ((b.getTile b.current_row b.current_col).set_letter (letter.map Char.toUpper))
          with current_col := b.current_col + 1 }) := by
    unfold GameBoard.add_letter
    rw [if_neg hcond]
  rw [hred]
  refine ⟨rfl, ?_, rfl, rfl, rfl, rfl, ?_, ?_⟩
  · constructor
    · exact (setTile_wf b _ _ _ hwf hr).1
    · exact (setTile_wf b _ _ _ hwf hr).2
  · exact getTile_setTile_self b _ _ _ hwf hr hc
  · intro r c h
    exact getTile_setTile_ne b _ _ r c _ (by tauto)

/-- Folding tile reveals over any index/state pairs changes no board field
other than the grid, and keeps the board well formed. -/
lemma revealRow_fields (r : Nat) (hr : r < 6) :
    ∀ (ps : List (Nat × TileState)) (b : GameBoard), b.wf →
      (ps.foldl (fun b p => b.setTile r p.1 ((b.getTile r p.1).reveal p.2)) b).wf
      ∧ (ps.foldl (fun b p => b.setTile r p.1 ((b.getTile r p.1).reveal p.2)) b).current_row
          = b.current_row
      ∧ (ps.foldl (fun b p => b.setTile r p.1 ((b.getTile r p.1).reveal p.2)) b).current_col
          = b.current_col
      ∧ (ps.foldl (fun b p => b.setTile r p.1 ((b.getTile r p.1).reveal p.2)) b).guesses
          = b.guesses
      ∧ (ps.foldl (fun b p => b.setTile r p.1 ((b.getTile r p.1).reveal p.2)) b).target_word
          = b.target_word := by
  intro ps
  induction ps with
  | nil => exact fun b hwf => ⟨hwf, rfl, rfl, rfl, rfl⟩
  | cons p rest ih =>
    intro b hwf
    rw [List.foldl_cons]
    obtain ⟨h1, h2, h3, h4, h5⟩ := ih _ (setTile_wf b _ _ _ hwf hr)
    exact ⟨h1, h2, h3, h4, h5⟩

/-- A submission from a complete row with a target set evaluates the current
guess, appends it, reports the win flag, and moves the cursor to the start of
the next row. -/
lemma submit_guess_success (b : GameBoard) (hwf : b.wf) (hr : b.current_row < 6)
    (hrc : b.is_row_complete = true) (ht : b.target_word ≠ []) :
    (b.submit_guess).1.1 = (b.get_current_guess == b.target_word)
    ∧ (b.submit_guess).2.wf
    ∧ (b.submit_guess).2.current_row = b.current_row + 1
    ∧ (b.submit_guess).2.current_col = 0
    ∧ (b.submit_guess).2.guesses = b.guesses ++ [b.get_current_guess]
    ∧ (b.submit_guess).2.target_word = b.target_word := by
  have hcond : ¬(¬(b.is_row_complete = true) ∨ b.target_word = []) := by
    push_neg
    exact ⟨hrc, ht⟩
  have hfold : (b.revealRow b.current_row
        (evaluate_guess b.get_current_guess b.target_word)).wf
      ∧ (b.revealRow b.current_row
          (evaluate_guess b.get_current_guess b.target_word)).current_row
        = b.current_row
      ∧ (b.revealRow b.current_row
          (evaluate_guess b.get_current_guess b.target_word)).current_col
        = b.current_col
      ∧ (b.revealRow b.current_row
          (evaluate_guess b.get_current_guess b.target_word)).guesses
        = b.guesses
      ∧ (b.revealRow b.current_row
          (evaluate_guess b.get_current_guess b.target_word)).target_word
        = b.target_word :=
    revealRow_fields b.current_row hr
      ((evaluate_guess b.get_current_guess b.target_word).enum) b hwf
  obtain ⟨h1, h2, h3, h4, h5⟩ := hfold
  obtain ⟨tiles2, htiles⟩ : ∃ ts, (b.revealRow b.current_row
      (evaluate_guess b.get_current_guess b.target_word)).tiles = ts := ⟨_, rfl⟩
  have hsg : b.submit_guess
      = ((b.get_current_guess
            == (b.revealRow b.current_row
                (evaluate_guess b.get_current_guess b.target_word)).target_word,
          evaluate_guess b.get_current_guess b.target_word),
         { tiles := (b.revealRow b.current_row
              (evaluate_guess b.get_current_guess b.target_word)).tiles,
           guesses := (b.revealRow b.current_row
              (evaluate_guess b.get_current_guess b.target_word)).guesses
              ++ [b.get_current_guess],
           target_word := (b.revealRow b.current_row
              (evaluate_guess b.get_current_guess b.target_word)).target_word,
           current_row := (b.revealRow b.current_row
              (evaluate_guess b.get_current_guess b.target_word)).current_row + 1,
           current_col := 0 }) := by
    unfold GameBoard.submit_guess
    rw [if_neg hcond]
  rw [htiles, h2, h4, h5] at hsg
  have hlen6 : tiles2.length = 6 := htiles ▸ h1.1
  have hrows : ∀ row ∈ tiles2, row.length = 5 := htiles ▸ h1.2
  rw [hsg]
  exact ⟨rfl, ⟨hlen6, hrows⟩, rfl, rfl, rfl, rfl⟩

/-- Typing a sequence of alphabetic letters onto a live screen advances only
the column, filling the typed tiles of the current row. -/
lemma type_word :
    ∀ (cs : List Char) (st : GameScreen),
    st.game_over = false → st.board.wf →
    st.board.current_row < 6 → st.board.current_col + cs.length ≤ 5 →
    (∀ c ∈ cs, c.isAlpha = true) →
    ((cs.foldl (fun s c => s.on_key (KeyEvent.char c)) st).game_over = false
    ∧ (cs.foldl (fun s c => s.on_key (KeyEvent.char c)) st).won = st.won
    ∧ (cs.foldl (fun s c => s.on_key (KeyEvent.char c)) st).valid_words = st.valid_words
    ∧ (cs.foldl (fun s c => s.on_key (KeyEvent.char c)) st).board.wf
    ∧ (cs.foldl (fun s c => s.on_key (KeyEvent.char c)) st).board.current_row
        = st.board.current_row
    ∧ (cs.foldl (fun s c => s.on_key (KeyEvent.char c)) st).board.current_col
        = st.board.current_col + cs.length
    ∧ (cs.foldl (fun s c => s.on_key (KeyEvent.char c)) st).board.guesses
        = st.board.guesses
    ∧ (cs.foldl (fun s c => s.on_key (KeyEvent.char c)) st).board.target_word
        = st.board.target_word
    ∧ (∀ c', c' < st.board.current_col →
        (cs.foldl (fun s c => s.on_key (KeyEvent.char c)) st).board.getTile
            st.board.current_row c'
          = st.board.getTile st.board.current_row c')
    ∧ (∀ k, k < cs.length →
        (cs.foldl (fun s c => s.on_key (KeyEvent.char c)) st).board.getTile
            st.board.current_row (st.board.current_col + k)
          = ⟨[(cs.getD k ' ').toUpper], TileState.filled⟩)) := by
  intro cs
  induction cs with
  | nil =>
    intro st hgo _ _ _ _
    refine ⟨hgo, rfl, rfl, ?_, rfl, by simp, rfl, rfl, fun c' _ => rfl, fun k hk => absurd hk (by simp)⟩
    assumption
  | cons c rest ih =>
    intro st hgo hwf hr hcol halpha
    have hca : c.isAlpha = true := halpha c (List.mem_cons_self c rest)
    have hcol5 : st.board.current_col < 5 := by
      have := hcol
      simp only [List.length_cons] at this
      omega
    have hkey : st.on_key (KeyEvent.char c)
        = { st with board := (st.board.add_letter [c]).2 } := by
      show (if st.game_over = true then st
        else if c.isAlpha = true then { st with board := (st.board.add_letter [c]).2 }
        else st) = _
      rw [if_neg (by simp [hgo]), if_pos hca]
    obtain ⟨_, ha2, ha3, ha4, ha5, ha6, ha7, ha8⟩ :=
      add_letter_spec st.board [c] hwf hr hcol5
    rw [List.foldl_cons, hkey]
    have hrest : st.board.current_col + 1 + rest.length ≤ 5 := by
      have := hcol
      simp only [List.length_cons] at this
      omega
    obtain ⟨i1, i2, i3, i4, i5, i6, i7, i8, i9, i10⟩ :=
      ih { st with board := (st.board.add_letter [c]).2 } hgo ha2
        (by show (st.board.add_letter [c]).2.current_row < 6; omega)
        (by show (st.board.add_letter [c]).2.current_col + rest.length ≤ 5; omega)
        (fun x hx => halpha x (List.mem_cons_of_mem _ hx))
    have hrow1 : ({ st with board := (st.board.add_letter [c]).2 } : GameScreen).board.current_row
        = st.board.current_row := ha3
    have hcol1 : ({ st with board := (st.board.add_letter [c]).2 } : GameScreen).board.current_col
        = st.board.current_col + 1 := ha4
    rw [hrow1, hcol1] at i9 i10
    rw [hrow1] at i5
    rw [hcol1] at i6
    refine ⟨i1, i2, i3, i4, ?_, ?_, ?_, ?_, ?_, ?_⟩
    · exact i5
    · rw [i6]
      simp only [List.length_cons]
      omega
    · exact i7.trans ha5
    · exact i8.trans ha6
    · intro c' hc'
      refine (i9 c' (by omega)).trans ?_
      exact ha8 _ _ (Or.inr (by omega))
    · intro k hk
      cases k with
      | zero =>
        have hval : (st.board.getTile st.board.current_row st.board.current_col).set_letter
            ([c].map Char.toUpper) = ⟨[c.toUpper], TileState.filled⟩ := by
          simp [Tile.set_letter]
        have h0 : st.board.current_col + 0 = st.board.current_col := by omega
        rw [h0]
        refine (i9 st.board.current_col (by omega)).trans ?_
        show (st.board.add_letter [c]).2.getTile st.board.current_row st.board.current_col
          = _
        rw [ha7, hval]
        rfl
      | succ k1 =>
        have hk1 : k1 < rest.length := by
          have := hk
          simp only [List.length_cons] at this
          omega
        have hidx : st.board.current_col + (k1 + 1) = st.board.current_col + 1 + k1 := by
          omega
        rw [hidx]
        refine (i10 k1 hk1).trans ?_
        rfl

/-- A list of length five is an explicit five-element list. -/
lemma list_length_eq_five {α : Type} {l : List α} (h : l.length = 5) :
    ∃ a b c d e, l = [a, b, c, d, e] := by
  rcases l with _ | ⟨a, _ | ⟨b, _ | ⟨c, _ | ⟨d, _ | ⟨e, _ | ⟨f, tl⟩⟩⟩⟩⟩⟩
  · simp at h
  · simp at h
  · simp at h
  · simp at h
  · simp at h
  · exact ⟨a, b, c, d, e, rfl⟩
  · simp [List.length_cons] at h

/-- Playing one valid, non-winning 5-letter word on a live screen advances
the row, keeps `won` as it was, and sets `game_over` exactly when row 6 is
reached. -/
lemma play_word_spec (st : GameScreen) (w : List Char)
    (hgo : st.game_over = false) (hwf : st.board.wf)
    (hr : st.board.current_row < 6) (hcol : st.board.current_col = 0)
    (hw5 : w.length = 5) (halpha : ∀ c ∈ w, c.isAlpha = true)
    (hupper : ∀ c ∈ w, c.toUpper = c)
    (hvalid : st.valid_words = [] ∨ w ∈ st.valid_words)
    (htne : w ≠ st.board.target_word) (ht : st.board.target_word ≠ []) :
    (st.play_word w).game_over = decide (6 ≤ st.board.current_row + 1)
    ∧ (st.play_word w).won = st.won
    ∧ (st.play_word w).valid_words = st.valid_words
    ∧ (st.play_word w).board.wf
    ∧ (st.play_word w).board.current_row = st.board.current_row + 1
    ∧ (st.play_word w).board.current_col = 0
    ∧ (st.play_word w).board.target_word = st.board.target_word := by
  obtain ⟨i1, i2, i3, i4, i5, i6, i7, i8, i9, i10⟩ :=
    type_word w st hgo hwf hr (by omega) halpha
  rw [hcol, hw5] at i6
  have htile : ∀ k, k < 5 →
      (w.foldl (fun s c => s.on_key (KeyEvent.char c)) st).board.getTile
          st.board.current_row k
        = ⟨[w.getD k ' '], TileState.filled⟩ := by
    intro k hk
    have h := i10 k (by omega)
    rw [hcol, Nat.zero_add] at h
    rw [h]
    have hku : (w.getD k ' ').toUpper = w.getD k ' ' := by
      have hkw : k < w.length := by omega
      refine hupper _ ?_
      rw [List.getD_eq_getElem _ _ hkw]
      exact List.getElem_mem hkw
    rw [hku]
  have hguess : (w.foldl (fun s c => s.on_key (KeyEvent.char c)) st).board.get_current_guess
      = w := by
    obtain ⟨c0, c1, c2, c3, c4, rfl⟩ := list_length_eq_five hw5
    unfold GameBoard.get_current_guess
    simp only [i5]
    have e : (List.range 5).map
        (fun col => (([c0, c1, c2, c3, c4].foldl
            (fun s c => s.on_key (KeyEvent.char c)) st).board.getTile
          st.board.current_row col).letter)
        = [[c0], [c1], [c2], [c3], [c4]] := by
      have h5 : List.range 5 = [0, 1, 2, 3, 4] := rfl
      rw [h5]
      simp only [List.map]
      rw [htile 0 (by omega), htile 1 (by omega), htile 2 (by omega),
        htile 3 (by omega), htile 4 (by omega)]
      rfl
    rw [e]
    rw [show ([[c0], [c1], [c2], [c3], [c4]] : List (List Char)).flatten
      = [c0, c1, c2, c3, c4] from rfl]
    exact map_toUpper_eq_self hupper
  have hrc : (w.foldl (fun s c => s.on_key (KeyEvent.char c)) st).board.is_row_complete
      = true := by
    unfold GameBoard.is_row_complete
    rw [i6]
    rfl
  obtain ⟨s1, s2, s3, s4, s5, s6⟩ :=
    submit_guess_success (w.foldl (fun s c => s.on_key (KeyEvent.char c)) st).board
      i4 (by rw [i5]; exact hr) hrc (by rw [i8]; exact ht)
  rw [hguess, i8] at s1
  have hwon : ((w.foldl (fun s c => s.on_key (KeyEvent.char c)) st).board.submit_guess).1.1
      = false := by
    rw [s1]
    exact beq_eq_false_iff_ne.mpr htne
  have hvalid' : ¬((w.foldl (fun s c => s.on_key (KeyEvent.char c)) st).valid_words ≠ []
      ∧ (w.foldl (fun s c => s.on_key (KeyEvent.char c)) st).board.get_current_guess
          ∉ (w.foldl (fun s c => s.on_key (KeyEvent.char c)) st).valid_words) := by
    rw [i3, hguess]
    rcases hvalid with h | h
    · simp [h]
    · intro hcon
      exact hcon.2 h
  have henter : (w.foldl (fun s c => s.on_key (KeyEvent.char c)) st).on_key KeyEvent.enter
      = (w.foldl (fun s c => s.on_key (KeyEvent.char c)) st).submit_step := by
    show (if (w.foldl (fun s c => s.on_key (KeyEvent.char c)) st).game_over = true
      then (w.foldl (fun s c => s.on_key (KeyEvent.char c)) st)
      else (w.foldl (fun s c => s.on_key (KeyEvent.char c)) st).submit_step) = _
    rw [if_neg (by simp [i1])]
  have hplay : st.play_word w
      = (w.foldl (fun s c => s.on_key (KeyEvent.char c)) st).submit_step := by
    unfold GameScreen.play_word
    exact henter
  have hsub : (w.foldl (fun s c => s.on_key (KeyEvent.char c)) st).submit_step
      = (if ((w.foldl (fun s c => s.on_key (KeyEvent.char c)) st).board.submit_guess).1.1 = true
          then { (w.foldl (fun s c => s.on_key (KeyEvent.char c)) st) with
              board := ((w.foldl (fun s c => s.on_key (KeyEvent.char c)) st).board.submit_guess).2,
              keyboard := (w.foldl (fun s c => s.on_key (KeyEvent.char c)) st).keyboard.update_from_guess
                (w.foldl (fun s c => s.on_key (KeyEvent.char c)) st).board.get_current_guess
                ((w.foldl (fun s c => s.on_key (KeyEvent.char c)) st).board.submit_guess).1.2,
              game_over := true, won := true }
        else if ((w.foldl (fun s c => s.on_key (KeyEvent.char c)) st).board.submit_guess).2.current_row ≥ 6
          then { (w.foldl (fun s c => s.on_key (KeyEvent.char c)) st) with
              board := ((w.foldl (fun s c => s.on_key (KeyEvent.char c)) st).board.submit_guess).2,
              keyboard := (w.foldl (fun s c => s.on_key (KeyEvent.char c)) st).keyboard.update_from_guess
                (w.foldl (fun s c => s.on_key (KeyEvent.char c)) st).board.get_current_guess
                ((w.foldl (fun s c => s.on_key (KeyEvent.char c)) st).board.submit_guess).1.2,
              game_over := true }
        else { (w.foldl (fun s c => s.on_key (KeyEvent.char c)) st) with
              board := ((w.foldl (fun s c => s.on_key (KeyEvent.char c)) st).board.submit_guess).2,
              keyboard := (w.foldl (fun s c => s.on_key (KeyEvent.char c)) st).keyboard.update_from_guess
                (w.foldl (fun s c => s.on_key (KeyEvent.char c)) st).board.get_current_guess
                ((w.foldl (fun s c => s.on_key (KeyEvent.char c)) st).board.submit_guess).1.2 }) := by
    show (if ¬((w.foldl (fun s c => s.on_key (KeyEvent.char c)) st).board.is_row_complete = true)
      then (w.foldl (fun s c => s.on_key (KeyEvent.char c)) st)
      else if (w.foldl (fun s c => s.on_key (KeyEvent.char c)) st).valid_words ≠ []
          ∧ (w.foldl (fun s c => s.on_key (KeyEvent.char c)) st).board.get_current_guess
              ∉ (w.foldl (fun s c => s.on_key (KeyEvent.char c)) st).valid_words
        then (w.foldl (fun s c => s.on_key (KeyEvent.char c)) st)
        else _) = _
    rw [if_neg (by simp [hrc]), if_neg hvalid']
  rw [hplay, hsub, hwon]
  simp only [Bool.false_eq_true, if_false]
  rw [s3, i5]
  by_cases h6 : st.board.current_row + 1 ≥ 6
  · rw [if_pos h6]
    refine ⟨by simp [h6], i2, i3, s2, ?_, s4, s6.trans i8⟩
    rw [s3, i5]
  · rw [if_neg h6]
    refine ⟨by simp [i1]; omega, i2, i3, s2, ?_, s4, s6.trans i8⟩
    rw [s3, i5]

/-- Playing a nonempty run of valid, non-winning words advances the row by
one per word, never sets `won`, and reaches `game_over` exactly on row 6. -/
lemma play_words_spec :
    ∀ (gs : List (List Char)) (st : GameScreen),
      gs ≠ [] →
      st.game_over = false → st.board.wf →
      st.board.current_col = 0 →
      st.board.current_row + gs.length ≤ 6 →
      st.board.target_word ≠ [] →
      (∀ w ∈ gs, w.length = 5 ∧ (∀ c ∈ w, c.isAlpha = true) ∧ (∀ c ∈ w, c.toUpper = c)
        ∧ (st.valid_words = [] ∨ w ∈ st.valid_words) ∧ w ≠ st.board.target_word) →
      ((gs.foldl GameScreen.play_word st).game_over
          = decide (6 ≤ st.board.current_row + gs.length)
      ∧ (gs.foldl GameScreen.play_word st).won = st.won
      ∧ (gs.foldl GameScreen.play_word st).board.current_row
          = st.board.current_row + gs.length) := by
  intro gs
  induction gs with
  | nil => intro st hne; exact absurd rfl hne
  | cons g rest ih =>
    intro st _ hgo hwf hcol hlen ht hws
    obtain ⟨hw5, halpha, hupper, hvalid, htne⟩ := hws g (List.mem_cons_self g rest)
    have hr : st.board.current_row < 6 := by
      simp only [List.length_cons] at hlen
      omega
    obtain ⟨p1, p2, p3, p4, p5, p6, p7⟩ :=
      play_word_spec st g hgo hwf hr hcol hw5 halpha hupper hvalid htne ht
    rw [List.foldl_cons]
    by_cases hrest : rest = []
    · subst hrest
      simp only [List.foldl_nil, List.length_cons, List.length_nil]
      exact ⟨p1, p2, p5⟩
    · have hrl : 0 < rest.length := List.length_pos.2 hrest
      have hnw : ¬(6 ≤ st.board.current_row + 1) := by
        simp only [List.length_cons] at hlen
        omega
      have hgo1 : (st.play_word g).game_over = false := by
        rw [p1]
        simp [hnw]
      obtain ⟨q1, q2, q3⟩ := ih (st.play_word g) hrest hgo1 p4 p6
        (by rw [p5]; simp only [List.length_cons] at hlen; omega)
        (by rw [p7]; exact ht)
        (by
          intro w hw
          obtain ⟨a, b, c, d, e⟩ := hws w (List.mem_cons_of_mem _ hw)
          refine ⟨a, b, c, ?_, ?_⟩
          · rw [p3]; exact d
          · rw [p7]; exact e)
      refine ⟨?_, q2.trans p2, ?_⟩
      · rw [q1, p5]
        have harith : st.board.current_row + 1 + rest.length
            = st.board.current_row + (g :: rest).length := by
          simp only [List.length_cons]
          omega
        rw [harith]
      · rw [q3, p5]
        simp only [List.length_cons]
        omega

/-- C4: submitting an incomplete row or with no target set is rejected by the
board with a failure result and no state change; any key after `game_over`
leaves the screen untouched; after exactly 6 non-winning submissions the
session is terminal with `won = false`, and a further submission changes
nothing. -/
theorem submit_rejection_safety :
    (∀ b : GameBoard, (¬(b.is_row_complete = true) ∨ b.target_word = []) →
      b.submit_guess = ((false, []), b))
    ∧ (∀ (st : GameScreen) (k : KeyEvent), st.game_over = true → st.on_key k = st)
    ∧ (∀ (target : List Char) (valid : List (List Char)) (gs : List (List Char)),
        target ≠ [] → gs.length = 6 →
        (∀ w ∈ gs, w.length = 5 ∧ (∀ c ∈ w, c.isAlpha = true)
          ∧ (∀ c ∈ w, c.toUpper = c) ∧ (valid = [] ∨ w ∈ valid)
          ∧ w ≠ target.map Char.toUpper) →
        (gs.foldl GameScreen.play_word (GameScreen.start target valid)).game_over = true
        ∧ (gs.foldl GameScreen.play_word (GameScreen.start target valid)).won = false
        ∧ ∀ k, (gs.foldl GameScreen.play_word (GameScreen.start target valid)).on_key k
            = gs.foldl GameScreen.play_word (GameScreen.start target valid)) := by
  have hok : ∀ (st : GameScreen) (k : KeyEvent), st.game_over = true → st.on_key k = st := by
    intro st k h
    unfold GameScreen.on_key
    rw [if_pos h]
  refine ⟨?_, hok, ?_⟩
  · intro b h
    unfold GameBoard.submit_guess
    rw [if_pos h]
  · intro target valid gs ht h6 hws
    have hne : gs ≠ [] := by
      intro h
      rw [h] at h6
      simp at h6
    have hwf0 : (GameScreen.start target valid).board.wf := by
      constructor
      · rfl
      · intro row hrow
        have : row = List.replicate 5 Tile.blank := by
          simpa [GameScreen.start, GameBoard.set_target, GameBoard.init,
            List.eq_of_mem_replicate] using List.eq_of_mem_replicate hrow
        rw [this]
        simp
    have ht0 : (GameScreen.start target valid).board.target_word ≠ [] := by
      show target.map Char.toUpper ≠ []
      simpa using ht
    obtain ⟨q1, q2, q3⟩ := play_words_spec gs (GameScreen.start target valid) hne rfl hwf0
      rfl (by rw [h6]; show 0 + 6 ≤ 6; omega) ht0
      (by
        intro w hw
        obtain ⟨a, b, c, d, e⟩ := hws w hw
        exact ⟨a, b, c, d, e⟩)
    have hrow0 : (GameScreen.start target valid).board.current_row = 0 := rfl
    have hgover : (gs.foldl GameScreen.play_word (GameScreen.start target valid)).game_over
        = true := by
      rw [q1, hrow0, h6]
      rfl
    refine ⟨hgover, ?_, fun k => hok _ k hgover⟩
    rw [q2]
    rfl

/-- A word list of six non-winning guesses. -/
def sixLosses : List (List Char) := List.replicate 6 "SLATE".toList

/-- Witness for C4: six SLATE guesses against CRANE end the game unsolved and
a further key press changes nothing. -/
theorem submit_rejection_safety_witness :
    (sixLosses.foldl GameScreen.play_word (GameScreen.start "CRANE".toList [])).game_over = true
    ∧ (sixLosses.foldl GameScreen.play_word (GameScreen.start "CRANE".toList [])).won = false
    ∧ (sixLosses.foldl GameScreen.play_word
          (GameScreen.start "CRANE".toList [])).on_key KeyEvent.enter
        = sixLosses.foldl GameScreen.play_word (GameScreen.start "CRANE".toList []) :=
  have h := submit_rejection_safety.2.2 "CRANE".toList [] sixLosses
    (by decide) (by decide) (by decide)
  ⟨h.1, h.2.1, h.2.2 KeyEvent.enter⟩

/-! ## Witnesses for the progress, uniqueness and streak theorems -/

/-- Witness for C3: stored `["CRANE", "SLATE"]`, incoming `["CRANE"]`
(truncation) is rejected and the snapshot survives. -/
theorem save_progress_append_only_witness :
    (save_progress false (some ⟨["CRANE".toList, "SLATE".toList], 30⟩)
      ["CRANE".toList] 10).1.saved = false
    ∧ (save_progress false (some ⟨["CRANE".toList, "SLATE".toList], 30⟩)
        ["CRANE".toList] 10).2 = some ⟨["CRANE".toList, "SLATE".toList], 30⟩ :=
  (save_progress_append_only false ⟨["CRANE".toList, "SLATE".toList], 30⟩
    ["CRANE".toList] 10).2.1 (by decide)

/-- Witness for C6: stored elapsed 30, incoming elapsed 20 is accepted and 30
is kept. -/
theorem save_progress_monotonic_elapsed_witness :
    (save_progress false (some ⟨["CRANE".toList], 30⟩) ["CRANE".toList] 20).1.saved = true
    ∧ (save_progress false (some ⟨["CRANE".toList], 30⟩) ["CRANE".toList] 20).2
        = some ⟨["CRANE".toList], max 30 20⟩ :=
  ⟨(save_progress_monotonic_elapsed ⟨["CRANE".toList], 30⟩ ["CRANE".toList] 20 (by decide)).1,
   (save_progress_monotonic_elapsed ⟨["CRANE".toList], 30⟩ ["CRANE".toList] 20 (by decide)).2.1⟩

/-- Witness for C10: a save over a pair whose result exists is rejected and
the snapshot survives. -/
theorem save_progress_reject_atomic_witness :
    (save_progress true (some ⟨["CRANE".toList], 30⟩) ["CRANE".toList, "SLATE".toList] 60).1.saved = false
    ∧ (save_progress true (some ⟨["CRANE".toList], 30⟩) ["CRANE".toList, "SLATE".toList] 60).2
        = some ⟨["CRANE".toList], 30⟩ :=
  ⟨by decide,
   save_progress_reject_atomic true (some ⟨["CRANE".toList], 30⟩)
     ["CRANE".toList, "SLATE".toList] 60 (by decide)⟩

/-- A first game result row. -/
def rowFirst : GameResultRow :=
  ⟨1, 7, 3, 4, true, some 42, 100, ["CRANE".toList]⟩

/-- A second submission for the same (user, word) pair. -/
def rowDup : GameResultRow :=
  ⟨2, 7, 3, 2, true, some 17, 150, ["SLATE".toList]⟩

/-- Witness for C5: the first submission appends its row, a duplicate
submission fails and leaves the table unchanged. -/
theorem game_result_unique_witness :
    submit [] rowFirst = (none, [rowFirst])
    ∧ submit [rowFirst] rowDup = (some "Already played today", [rowFirst]) :=
  ⟨(game_result_unique [] rowFirst).2.1 (by decide),
   (game_result_unique [rowFirst] rowDup).1 (by decide)⟩

/-- Witness for C8: a solved game the day after the last played day increments
the streak, and `last_played` moves to today. -/
theorem update_streak_rules_witness :
    (update_streak (some ⟨2, 5, some 9, 3, 2⟩) true 10).last_played = some 10
    ∧ (update_streak (some ⟨2, 5, some 9, 3, 2⟩) true 10).current_streak = 2 + 1 :=
  ⟨(update_streak_rules (some ⟨2, 5, some 9, 3, 2⟩) true 10).1,
   (update_streak_rules (some ⟨2, 5, some 9, 3, 2⟩) true 10).2.1
     ⟨2, 5, some 9, 3, 2⟩ rfl rfl (by norm_num)⟩

end Wordle
